import Mathlib

/-!
Verification of the vscode-vcalc calculator core against its specification.

The definitions below are shallow embeddings of the TypeScript sources:
  * `Value` and its accessors embed `src/value.ts` (class `Value extends Array<number>`,
    with an explicit `rows` field and `dimensions`/`cols`/`col`/`index`/`entry`/`stringify`).
  * `opPairs`, `matrixMultiply`, `magnitude`, `normalize`, `dot`, `cross`, `angle`,
    `xyz`, `plane`, `pointPlaneDistance`, `transpose`, the unary family and the
    calculation-engine step embed `src/extension.ts`.
  * `NodeType`, `Node`, `numMatch` and `parse` embed `src/parser.ts`.

JavaScript numbers are modelled exactly: components are rational (or real, for the
operations that need `Math.sqrt`/trig), array indices and row counts are naturals.
Divergences of this idealisation from IEEE-754 are noted at each definition.
-/

namespace VCalc

/-- Embeds class `Value extends Array<number>` of value.ts: a flat ordered
sequence of numbers (`nums`, the array contents) plus the explicit `rows`
field set by the constructor (`new Value(x, rows)`, default `rows = x.length`). -/
structure Value (α : Type) where
  nums : List α
  rows : ℕ
  deriving Repr, DecidableEq

namespace Value

/-- `Value.scalar(x)`: `new Value([x])`, a 1-element, 1-row value. -/
def scalar (x : α) : Value α := ⟨[x], 1⟩

/-- `Value.invalid`: `new Value([], 0)`, the canonical invalid sentinel. -/
def invalid : Value α := ⟨[], 0⟩

/-- `get valid() { return this.rows > 0 }`. -/
def valid (v : Value α) : Prop := 0 < v.rows

instance (v : Value α) : Decidable v.valid := by unfold valid; infer_instance

/-- `get dimensions()` of value.ts:
`length === 1 → 0`; else `length === rows → 1`; else `length % rows === 0 → 2`;
else `-1`.  With natural `rows`, `length % 0 = length` in Lean, which is nonzero
in every case that reaches the third test (`length ∉ {1}` and `length ≠ rows`
force `length ≠ 0` when `rows = 0`), matching JavaScript where `length % 0` is
`NaN` and `NaN === 0` is false. -/
def dimensions (v : Value α) : ℤ :=
  if v.nums.length = 1 then 0
  else if v.nums.length = v.rows then 1
  else if v.nums.length % v.rows = 0 then 2
  else -1

/-- `get cols() { return this.length / this.rows }`.  JavaScript division is
exact rational division; this natural-number division agrees with it whenever
`rows ∣ length` and `rows ≠ 0`, and theorems about derived shapes carry those
hypotheses. -/
def cols (v : Value α) : ℕ := v.nums.length / v.rows

/-- `index(row, col) { return col * this.rows + row }` (column-major). -/
def index (v : Value α) (row col : ℕ) : ℕ := col * v.rows + row

/-- `entry(row, col) { return this[col * this.rows + row] }`.  Out-of-range
reads give `undefined` in JavaScript; they are defaulted to `0` here and no
theorem below depends on an out-of-range read. -/
def entry [Zero α] (v : Value α) (row col : ℕ) : α := v.nums.getD (v.index row col) 0

/-- `col(i)`: `new Value(this.slice(i * rows, (i + 1) * rows))`. -/
def col (v : Value α) (i : ℕ) : Value α :=
  ⟨(v.nums.drop (i * v.rows)).take v.rows, ((v.nums.drop (i * v.rows)).take v.rows).length⟩

end Value

/-- `opPairs(a, b, op)` of extension.ts: returns `Value.invalid` when
`(a.length !== b.length || a.rows !== b.rows) && a.dimensions !== 0 && b.dimensions !== 0`,
otherwise applies `op` pairwise over `max(a.length, b.length)` positions with
wrap-around indexing `a[i % a.length]`, `b[i % b.length]`, and row count
`max(a.rows, b.rows)`. -/
def opPairs [Zero α] (a b : Value α) (op : α → α → α) : Value α :=
  if (a.nums.length ≠ b.nums.length ∨ a.rows ≠ b.rows)
      ∧ a.dimensions ≠ 0 ∧ b.dimensions ≠ 0 then
    Value.invalid
  else
    ⟨(List.range (max a.nums.length b.nums.length)).map
        (fun i => op (a.nums.getD (i % a.nums.length) 0) (b.nums.getD (i % b.nums.length) 0)),
      max a.rows b.rows⟩

/-- `addPairs` of extension.ts. -/
def addPairs [Zero α] [Add α] (a b : Value α) : Value α := opPairs a b (· + ·)

/-- `subPairs` of extension.ts. -/
def subPairs [Zero α] [Sub α] (a b : Value α) : Value α := opPairs a b (· - ·)

/-- `mulPairs` of extension.ts. -/
def mulPairs [Zero α] [Mul α] (a b : Value α) : Value α := opPairs a b (· * ·)

/-- `divPairs` of extension.ts (JavaScript `/`; division by zero is modelled
by the field's total division, which never arises in the theorems below). -/
def divPairs [Zero α] [Div α] (a b : Value α) : Value α := opPairs a b (· / ·)

/-- `matrixMultiply(left, right)` of extension.ts.  The source guard is
`if (left.cols !== right.rows) return Value.invalid`.  Over JavaScript numbers
`left.cols` is the exact quotient `left.length / left.rows` when
`left.rows > 0` and `NaN`/`Infinity` when `left.rows = 0` (which compare
unequal to every row count), so `left.cols === right.rows` holds exactly when
`0 < left.rows ∧ left.length = left.rows * right.rows`; the guard is embedded
in that arithmetic form.  The loops push, for `i < right.cols` and
`j < left.rows`, the sum over `k < left.cols` of
`left.entry(j, k) * right.entry(k, i)`, and the result has `left.rows` rows.

Loop bounds, exactly as JavaScript runs them:
  * `i < right.cols` with `right.cols = right.length / right.rows` possibly
    fractional runs `⌈right.length / right.rows⌉` times — e.g. `right.cols =
    1.5` runs `i = 0, 1` — which is `(right.length + right.rows - 1) /
    right.rows` in natural arithmetic when `right.rows > 0`.  When
    `right.rows = 0` and `right.length = 0` the JS bound is `NaN` and the
    loop runs 0 times, which the same expression gives.  When
    `right.rows = 0` and `right.length > 0` the JS bound is `Infinity` and
    the loop never terminates, so the source returns nothing at all; a total
    embedding cannot express that, the expression gives 0 iterations there,
    and the C2 theorem excludes exactly that non-terminating point (no
    program path constructs a Value with 0 rows and positive length).
  * `k < left.cols` is integral in this branch (the guard forces
    `left.length = left.rows * right.rows`, so `left.cols = right.rows`),
    hence `List.range l.cols` is exact.
  * reads `right.entry(k, i)` past `right.length` (possible in the trailing
    partial column when `right.rows` does not divide `right.length`) give
    `undefined` (`NaN` arithmetic) in JavaScript and the `getD` default `0`
    here; no theorem asserts the value of an entry computed from such a
    read. -/
def matrixMultiply [Zero α] [Mul α] [Add α] (l r : Value α) : Value α :=
  if ¬(0 < l.rows ∧ l.nums.length = l.rows * r.rows) then
    Value.invalid
  else
    ⟨(List.range ((r.nums.length + r.rows - 1) / r.rows)).flatMap (fun i =>
        (List.range l.rows).map (fun j =>
          ((List.range l.cols).map (fun k => l.entry j k * r.entry k i)).sum)),
      l.rows⟩

/-- `unary(x, op)` of extension.ts: applies `op` to every component, keeping
`x.rows` (`forEach`/`push` preserves order). -/
def unary (x : Value α) (op : α → α) : Value α := ⟨x.nums.map op, x.rows⟩

/-- The `zero` helper of extension.ts: `unary(x, x => 0)`. -/
def zeroOf [Zero α] (x : Value α) : Value α := unary x (fun _ => 0)

/-- `dot(a, b)` of extension.ts: invalid unless both are vectors of equal
length; otherwise the scalar sum of componentwise products (the source
accumulates left-to-right into `sum`; addition is commutative and associative
on the exact number model, so the list sum has the same value). -/
def dot [Zero α] [Mul α] [Add α] (a b : Value α) : Value α :=
  if a.nums.length ≠ b.nums.length ∨ a.dimensions ≠ 1 ∨ b.dimensions ≠ 1 then
    Value.invalid
  else
    Value.scalar (((List.range (max a.nums.length b.nums.length)).map
      (fun i => a.nums.getD i 0 * b.nums.getD i 0)).sum)

/-- `cross(a, b)` of extension.ts: invalid unless both are vectors of length
at least 3; otherwise the 3-component cross product of the first three
components, returned as `new Value([...])` (3 rows). -/
def cross [Zero α] [Mul α] [Sub α] (a b : Value α) : Value α :=
  if a.dimensions ≠ 1 ∨ b.dimensions ≠ 1 ∨ a.nums.length < 3 ∨ b.nums.length < 3 then
    Value.invalid
  else
    ⟨[a.nums.getD 1 0 * b.nums.getD 2 0 - a.nums.getD 2 0 * b.nums.getD 1 0,
      a.nums.getD 2 0 * b.nums.getD 0 0 - a.nums.getD 0 0 * b.nums.getD 2 0,
      a.nums.getD 0 0 * b.nums.getD 1 0 - a.nums.getD 1 0 * b.nums.getD 0 0], 3⟩

/-- `transpose(x)` of extension.ts: starts from `new Value(x, x.cols)` (a copy
of the components with `x.cols` rows) and overwrites `y[i * x.cols + j]`
(which is `y.index(j, i)`) with `x.entry(i, j)` for `i < x.rows`,
`j < x.cols`; positions at or beyond `x.rows * x.cols` keep the copied
component. -/
def transpose [Zero α] (x : Value α) : Value α :=
  ⟨x.nums.mapIdx (fun p v =>
      if p < x.rows * x.cols then x.entry (p / x.cols) (p % x.cols) else v),
    x.cols⟩

/-! ### Generic list helpers -/

theorem getD_map_range {α : Type} (g : ℕ → α) (d : α) {i n : ℕ} (h : i < n) :
    ((List.range n).map g).getD i d = g i := by
  rw [List.getD_eq_getElem?_getD, List.getElem?_map, List.getElem?_range h]
  rfl

/-! ### C1: `opPairs` validity, shape and broadcasting -/

/-- C1 (counterexample): the claim asserts that `opPairs(a, b, f)` returns a
valid result whenever `a` and `b` have identical length and identical row
count.  The invalid sentinel has the same length and row count as itself, yet
`opPairs(Value.invalid, Value.invalid, +)` returns the invalid sentinel, which
is not valid. -/
theorem opPairs_invalid_counterexample :
    (Value.invalid (α := ℚ)).nums.length = (Value.invalid (α := ℚ)).nums.length ∧
    (Value.invalid (α := ℚ)).rows = (Value.invalid (α := ℚ)).rows ∧
    opPairs (Value.invalid (α := ℚ)) Value.invalid (· + ·) = Value.invalid ∧
    ¬ (opPairs (Value.invalid (α := ℚ)) Value.invalid (· + ·)).valid := by
  refine ⟨rfl, rfl, by decide, by decide⟩

/-- C1 (amended): for valid, nonempty operands, `opPairs(a, b, f)` is valid
iff both operands are scalar, or at least one is scalar, or the operands have
identical length and identical row count; otherwise it returns the invalid
sentinel; and when valid the result has length `max(len a, len b)`, row count
`max(rows a, rows b)`, and element `i` equal to
`f(a[i mod len a], b[i mod len b])` (so a scalar broadcasts componentwise). -/
theorem opPairs_spec {α : Type} [Zero α] (a b : Value α) (f : α → α → α)
    (hav : a.valid) (hbv : b.valid)
    (hal : 0 < a.nums.length) (hbl : 0 < b.nums.length) :
    ((opPairs a b f).valid ↔
      ((a.dimensions = 0 ∧ b.dimensions = 0) ∨ a.dimensions = 0 ∨ b.dimensions = 0 ∨
        (a.nums.length = b.nums.length ∧ a.rows = b.rows))) ∧
    (¬((a.dimensions = 0 ∧ b.dimensions = 0) ∨ a.dimensions = 0 ∨ b.dimensions = 0 ∨
        (a.nums.length = b.nums.length ∧ a.rows = b.rows)) →
      opPairs a b f = Value.invalid) ∧
    ((opPairs a b f).valid →
      (opPairs a b f).nums.length = max a.nums.length b.nums.length ∧
      (opPairs a b f).rows = max a.rows b.rows ∧
      ∀ i < max a.nums.length b.nums.length,
        (opPairs a b f).nums.getD i 0 =
          f (a.nums.getD (i % a.nums.length) 0) (b.nums.getD (i % b.nums.length) 0)) := by
  have hcond : ((a.nums.length ≠ b.nums.length ∨ a.rows ≠ b.rows)
        ∧ a.dimensions ≠ 0 ∧ b.dimensions ≠ 0) ↔
      ¬((a.dimensions = 0 ∧ b.dimensions = 0) ∨ a.dimensions = 0 ∨ b.dimensions = 0 ∨
        (a.nums.length = b.nums.length ∧ a.rows = b.rows)) := by
    constructor
    · rintro ⟨h1, h2, h3⟩ (⟨c, -⟩ | c | c | ⟨c1, c2⟩)
      · exact h2 c
      · exact h2 c
      · exact h3 c
      · rcases h1 with h | h
        · exact h c1
        · exact h c2
    · intro h
      by_cases h2 : a.dimensions = 0
      · exact absurd (Or.inr (Or.inl h2)) h
      by_cases h3 : b.dimensions = 0
      · exact absurd (Or.inr (Or.inr (Or.inl h3))) h
      refine ⟨?_, h2, h3⟩
      by_contra hc
      push_neg at hc
      exact h (Or.inr (Or.inr (Or.inr hc)))
  by_cases hc : (a.nums.length ≠ b.nums.length ∨ a.rows ≠ b.rows)
      ∧ a.dimensions ≠ 0 ∧ b.dimensions ≠ 0
  · have hres : opPairs a b f = Value.invalid := by
      unfold opPairs
      exact if_pos hc
    refine ⟨?_, fun _ => hres, ?_⟩
    · rw [hres]
      simp only [Value.valid, Value.invalid]
      constructor
      · intro h
        exact absurd rfl (Nat.ne_of_gt h)
      · intro h
        exact absurd h (hcond.mp hc)
    · intro hval
      rw [hres] at hval
      simp [Value.valid, Value.invalid] at hval
  · have hres : opPairs a b f =
        ⟨(List.range (max a.nums.length b.nums.length)).map
          (fun i => f (a.nums.getD (i % a.nums.length) 0) (b.nums.getD (i % b.nums.length) 0)),
          max a.rows b.rows⟩ := by
      unfold opPairs
      exact if_neg hc
    have hvalid : (opPairs a b f).valid := by
      rw [hres]
      simpa [Value.valid] using Or.inl hav
    have hrhs : (a.dimensions = 0 ∧ b.dimensions = 0) ∨ a.dimensions = 0 ∨ b.dimensions = 0 ∨
        (a.nums.length = b.nums.length ∧ a.rows = b.rows) := by
      by_contra h
      exact hc (hcond.mpr h)
    refine ⟨iff_of_true hvalid hrhs, fun h => absurd hrhs h, ?_⟩
    · intro _
      rw [hres]
      refine ⟨by simp, rfl, ?_⟩
      intro i hi
      exact getD_map_range _ _ hi

/-- C1 (witness): `opPairs_spec` applied to the scalar `2` and the vector
`(1, 2, 3)` over ℤ with `f = (+)`: the scalar broadcasts, giving `(3, 4, 5)`. -/
theorem opPairs_spec_witness :
    (Value.scalar (2 : ℤ)).valid ∧ (Value.mk ([1, 2, 3] : List ℤ) 3).valid ∧
    0 < (Value.scalar (2 : ℤ)).nums.length ∧
    0 < (Value.mk ([1, 2, 3] : List ℤ) 3).nums.length ∧
    (((opPairs (Value.scalar (2 : ℤ)) (Value.mk [1, 2, 3] 3) (· + ·)).valid ↔
      (((Value.scalar (2 : ℤ)).dimensions = 0 ∧ (Value.mk ([1, 2, 3] : List ℤ) 3).dimensions = 0) ∨
        (Value.scalar (2 : ℤ)).dimensions = 0 ∨
        (Value.mk ([1, 2, 3] : List ℤ) 3).dimensions = 0 ∨
        ((Value.scalar (2 : ℤ)).nums.length = (Value.mk ([1, 2, 3] : List ℤ) 3).nums.length ∧
          (Value.scalar (2 : ℤ)).rows = (Value.mk ([1, 2, 3] : List ℤ) 3).rows))) ∧
    (¬(((Value.scalar (2 : ℤ)).dimensions = 0 ∧ (Value.mk ([1, 2, 3] : List ℤ) 3).dimensions = 0) ∨
        (Value.scalar (2 : ℤ)).dimensions = 0 ∨
        (Value.mk ([1, 2, 3] : List ℤ) 3).dimensions = 0 ∨
        ((Value.scalar (2 : ℤ)).nums.length = (Value.mk ([1, 2, 3] : List ℤ) 3).nums.length ∧
          (Value.scalar (2 : ℤ)).rows = (Value.mk ([1, 2, 3] : List ℤ) 3).rows)) →
      opPairs (Value.scalar (2 : ℤ)) (Value.mk [1, 2, 3] 3) (· + ·) = Value.invalid) ∧
    ((opPairs (Value.scalar (2 : ℤ)) (Value.mk [1, 2, 3] 3) (· + ·)).valid →
      (opPairs (Value.scalar (2 : ℤ)) (Value.mk [1, 2, 3] 3) (· + ·)).nums.length =
        max (Value.scalar (2 : ℤ)).nums.length (Value.mk ([1, 2, 3] : List ℤ) 3).nums.length ∧
      (opPairs (Value.scalar (2 : ℤ)) (Value.mk [1, 2, 3] 3) (· + ·)).rows =
        max (Value.scalar (2 : ℤ)).rows (Value.mk ([1, 2, 3] : List ℤ) 3).rows ∧
      ∀ i < max (Value.scalar (2 : ℤ)).nums.length (Value.mk ([1, 2, 3] : List ℤ) 3).nums.length,
        (opPairs (Value.scalar (2 : ℤ)) (Value.mk [1, 2, 3] 3) (· + ·)).nums.getD i 0 =
          (Value.scalar (2 : ℤ)).nums.getD (i % (Value.scalar (2 : ℤ)).nums.length) 0 +
          (Value.mk ([1, 2, 3] : List ℤ) 3).nums.getD
            (i % (Value.mk ([1, 2, 3] : List ℤ) 3).nums.length) 0)) :=
  ⟨by decide, by decide, by decide, by decide,
    opPairs_spec (Value.scalar 2) (Value.mk [1, 2, 3] 3) (· + ·)
      (by decide) (by decide) (by decide) (by decide)⟩

/-! ### C3: derived shape classification -/

/-- C3 (counterexample): the claim asserts that the canonical invalid sentinel
(rows = 0, length = 0) is classified invalid, never as a vector, and that
`dimensions = 2` requires `rows > 1`.  In the code the sentinel satisfies
`length === rows`, so `dimensions` is `1` (a vector), and `⟨[5, 6], rows 1⟩`
has `dimensions = 2` with `rows = 1`. -/
theorem dimensions_counterexample :
    (Value.invalid (α := ℚ)).dimensions = 1 ∧
    (Value.invalid (α := ℚ)).dimensions ≠ -1 ∧
    (Value.mk ([5, 6] : List ℚ) 1).dimensions = 2 ∧
    ¬ 1 < (Value.mk ([5, 6] : List ℚ) 1).rows := by
  decide

/-- C3 (amended): `dimensions` is `0` exactly when `length = 1` (whatever the
row count); `1` exactly when `length = rows` and `length ≠ 1` (which includes
the rows = 0, length = 0 sentinel); `2` exactly when `length ≠ 1`,
`length ≠ rows` and `rows` divides `length` (which includes 1×N values with
`rows = 1`); and `-1` in every remaining case. -/
theorem dimensions_spec {α : Type} (v : Value α) :
    (v.dimensions = 0 ↔ v.nums.length = 1) ∧
    (v.dimensions = 1 ↔ (v.nums.length ≠ 1 ∧ v.nums.length = v.rows)) ∧
    (v.dimensions = 2 ↔
      (v.nums.length ≠ 1 ∧ v.nums.length ≠ v.rows ∧ v.rows ∣ v.nums.length)) ∧
    (v.dimensions = -1 ↔
      (v.nums.length ≠ 1 ∧ v.nums.length ≠ v.rows ∧ ¬ v.rows ∣ v.nums.length)) ∧
    (Value.invalid (α := α)).dimensions = 1 := by
  unfold Value.dimensions
  refine ⟨?_, ?_, ?_, ?_, rfl⟩ <;>
    split_ifs with h1 h2 h3 <;>
      simp_all [Nat.dvd_iff_mod_eq_zero] <;> omega

/-! ### C2: matrix multiplication -/

theorem length_flatMap_blocks {α : Type} (n m : ℕ) (g : ℕ → ℕ → α) :
    ((List.range n).flatMap (fun i => (List.range m).map (g i))).length = n * m := by
  induction n with
  | zero => simp
  | succ k ih =>
    rw [List.range_succ, List.flatMap_append, List.length_append, ih]
    simp [Nat.succ_mul]

theorem getD_flatMap_blocks {α : Type} {n m : ℕ} (g : ℕ → ℕ → α) (d : α) {i j : ℕ}
    (hi : i < n) (hj : j < m) :
    ((List.range n).flatMap (fun i => (List.range m).map (g i))).getD (i * m + j) d = g i j := by
  induction n with
  | zero => omega
  | succ k ih =>
    rw [List.range_succ, List.flatMap_append]
    by_cases hik : i < k
    · rw [List.getD_append]
      · exact ih hik
      · rw [length_flatMap_blocks]
        calc i * m + j < i * m + m := by omega
          _ = (i + 1) * m := by ring
          _ ≤ k * m := Nat.mul_le_mul_right m (by omega)
    · have hik' : i = k := by omega
      subst hik'
      rw [List.getD_append_right]
      · rw [length_flatMap_blocks]
        have : i * m + j - i * m = j := by omega
        rw [this]
        simp only [List.flatMap_cons, List.flatMap_nil, List.append_nil]
        exact getD_map_range _ _ hj
      · rw [length_flatMap_blocks]
        omega

theorem ceil_div_of_dvd {len rows : ℕ} (h : rows ∣ len) :
    (len + rows - 1) / rows = len / rows := by
  rcases Nat.eq_zero_or_pos rows with h0 | hpos
  · rw [h0]
    simp
  · obtain ⟨c, rfl⟩ := h
    have harr : rows * c + rows - 1 = rows * c + (rows - 1) := by omega
    rw [harr, Nat.mul_add_div hpos, Nat.div_eq_of_lt (by omega), Nat.add_zero,
      Nat.mul_div_cancel_left _ hpos]

/-- C2 (counterexample): the claim says that when `left.cols = right.rows` the
result has `right.cols` columns.  For `left` the 2×2 identity and
`right = Value([1, 2, 3], rows 2)` the guard passes (`left.cols = 2 =
right.rows`), `right.cols = 3/2` is fractional (1.5 in JavaScript, 1 in
natural arithmetic), and the JS loop `i < 1.5` runs twice: the result has 4
components in 2 rows, i.e. 2 columns — not `right.cols` columns.  (In
JavaScript the second column is `NaN`-contaminated by the out-of-range read
`right[3]`; only the exact first column `1, 2` is asserted here.) -/
theorem matrixMultiply_counterexample :
    (Value.mk ([1, 0, 0, 1] : List ℤ) 2).cols = (Value.mk ([1, 2, 3] : List ℤ) 2).rows ∧
    matrixMultiply (Value.mk ([1, 0, 0, 1] : List ℤ) 2) (Value.mk [1, 2, 3] 2) ≠
      Value.invalid ∧
    (matrixMultiply (Value.mk ([1, 0, 0, 1] : List ℤ) 2) (Value.mk [1, 2, 3] 2)).rows = 2 ∧
    (matrixMultiply (Value.mk ([1, 0, 0, 1] : List ℤ) 2) (Value.mk [1, 2, 3] 2)).nums.length =
      4 ∧
    (matrixMultiply (Value.mk ([1, 0, 0, 1] : List ℤ) 2) (Value.mk [1, 2, 3] 2)).cols = 2 ∧
    (matrixMultiply (Value.mk ([1, 0, 0, 1] : List ℤ) 2) (Value.mk [1, 2, 3] 2)).cols ≠
      (Value.mk ([1, 2, 3] : List ℤ) 2).cols ∧
    (matrixMultiply (Value.mk ([1, 0, 0, 1] : List ℤ) 2) (Value.mk [1, 2, 3] 2)).entry 0 0 =
      1 ∧
    (matrixMultiply (Value.mk ([1, 0, 0, 1] : List ℤ) 2) (Value.mk [1, 2, 3] 2)).entry 1 0 =
      2 := by
  decide

/-- C2 (amended): `matrixMultiply(left, right)` returns the invalid sentinel
exactly when the guard `left.cols === right.rows` fails (over coherent left
operands — positive row count dividing the length — that guard is exactly
`left.cols ≠ right.rows`); otherwise the result is valid, has `left.rows`
rows and `⌈right.length / right.rows⌉` columns — which equals `right.cols`
exactly when `right.rows` divides `right.length` — and, on every fully
populated column (those with `(col + 1) * right.rows ≤ right.length`; the
trailing partial column of an incoherent `right` is `NaN`-contaminated in
JavaScript), `entry(row, col)` is the sum over `k` of
`left.entry(row, k) * right.entry(k, col)`; in particular, multiplying the
2×2 identity matrix by any compatible vector returns that vector unchanged.
The hypothesis excludes only the point `right.rows = 0 < right.length`, where
the JavaScript loop bound is `Infinity` and the source never returns (no
program path constructs such a Value). -/
theorem matrixMultiply_spec {α : Type} [CommRing α] (l r : Value α)
    (hdiv : r.rows = 0 → r.nums.length = 0) :
    (matrixMultiply l r = Value.invalid ↔
      ¬(0 < l.rows ∧ l.nums.length = l.rows * r.rows)) ∧
    (0 < l.rows → l.rows ∣ l.nums.length →
      (matrixMultiply l r = Value.invalid ↔ l.cols ≠ r.rows)) ∧
    (0 < l.rows ∧ l.nums.length = l.rows * r.rows →
      (matrixMultiply l r).valid ∧
      (matrixMultiply l r).rows = l.rows ∧
      (matrixMultiply l r).cols = (r.nums.length + r.rows - 1) / r.rows ∧
      (r.rows ∣ r.nums.length → (matrixMultiply l r).cols = r.cols) ∧
      ∀ row col, row < l.rows → 0 < r.rows → (col + 1) * r.rows ≤ r.nums.length →
        (matrixMultiply l r).entry row col =
          ((List.range l.cols).map (fun k => l.entry row k * r.entry k col)).sum) ∧
    (∀ v : Value α, v.dimensions = 1 → v.nums.length = 2 →
      matrixMultiply (Value.mk [1, 0, 0, 1] 2) v = v) := by
  have hiff : matrixMultiply l r = Value.invalid ↔
      ¬(0 < l.rows ∧ l.nums.length = l.rows * r.rows) := by
    constructor
    · intro hres
      intro hguard
      unfold matrixMultiply at hres
      rw [if_neg (not_not_intro hguard)] at hres
      have := congrArg Value.rows hres
      simp only [Value.invalid] at this
      omega
    · intro hguard
      unfold matrixMultiply
      rw [if_pos hguard]
  refine ⟨hiff, ?_, ?_, ?_⟩
  · intro hl hld
    rw [hiff]
    have hcols : l.cols = r.rows ↔ l.nums.length = l.rows * r.rows := by
      unfold Value.cols
      rw [Nat.div_eq_iff_eq_mul_left hl hld, Nat.mul_comm]
    constructor
    · intro h hc
      exact h ⟨hl, hcols.mp hc⟩
    · rintro hne ⟨-, heq⟩
      exact hne (hcols.mpr heq)
  · rintro ⟨hl, hguard⟩
    have hres : matrixMultiply l r =
        ⟨(List.range ((r.nums.length + r.rows - 1) / r.rows)).flatMap (fun i =>
          (List.range l.rows).map (fun j =>
            ((List.range l.cols).map (fun k => l.entry j k * r.entry k i)).sum)),
          l.rows⟩ := by
      unfold matrixMultiply
      rw [if_neg (not_not_intro ⟨hl, hguard⟩)]
    rw [hres]
    refine ⟨by simpa [Value.valid] using hl, rfl, ?_, ?_, ?_⟩
    · show (_ : List α).length / l.rows = _
      rw [length_flatMap_blocks, Nat.mul_div_cancel _ hl]
    · intro hrd
      show (_ : List α).length / l.rows = r.cols
      rw [length_flatMap_blocks, Nat.mul_div_cancel _ hl, ceil_div_of_dvd hrd]
      rfl
    · intro row col hrow hrpos hcol
      have hcol2 : col < (r.nums.length + r.rows - 1) / r.rows := by
        have h1 : col + 1 ≤ r.nums.length / r.rows := by
          rw [Nat.le_div_iff_mul_le hrpos]
          exact hcol
        have h2 : r.nums.length / r.rows ≤ (r.nums.length + r.rows - 1) / r.rows :=
          Nat.div_le_div_right (by omega)
        omega
      show (_ : List α).getD (col * l.rows + row) 0 = _
      exact getD_flatMap_blocks _ _ hcol2 hrow
  · rintro ⟨nums, rows⟩ hdim hlen
    simp only at hlen
    have hrows : rows = 2 := by
      unfold Value.dimensions at hdim
      simp only [hlen] at hdim
      split_ifs at hdim with h1 h2 h3 <;> omega
    subst hrows
    match nums, hlen with
    | [x, y], _ =>
      show matrixMultiply (Value.mk [1, 0, 0, 1] 2) (Value.mk [x, y] 2) = Value.mk [x, y] 2
      unfold matrixMultiply
      rw [if_neg (by norm_num)]
      simp only [Value.cols, Value.entry, Value.index]
      norm_num [List.range_succ]

/-- C2 (witness): `matrixMultiply_spec` applied to the 2×2 identity matrix and
the vector `(5, 7)` over ℤ. -/
theorem matrixMultiply_spec_witness :
    ((Value.mk ([5, 7] : List ℤ) 2).rows = 0 → (Value.mk ([5, 7] : List ℤ) 2).nums.length = 0) ∧
    ((matrixMultiply (Value.mk ([1, 0, 0, 1] : List ℤ) 2) (Value.mk [5, 7] 2) = Value.invalid ↔
      ¬(0 < (Value.mk ([1, 0, 0, 1] : List ℤ) 2).rows ∧
        (Value.mk ([1, 0, 0, 1] : List ℤ) 2).nums.length =
          (Value.mk ([1, 0, 0, 1] : List ℤ) 2).rows * (Value.mk ([5, 7] : List ℤ) 2).rows)) ∧
    (0 < (Value.mk ([1, 0, 0, 1] : List ℤ) 2).rows →
      (Value.mk ([1, 0, 0, 1] : List ℤ) 2).rows ∣ (Value.mk ([1, 0, 0, 1] : List ℤ) 2).nums.length →
      (matrixMultiply (Value.mk ([1, 0, 0, 1] : List ℤ) 2) (Value.mk [5, 7] 2) = Value.invalid ↔
        (Value.mk ([1, 0, 0, 1] : List ℤ) 2).cols ≠ (Value.mk ([5, 7] : List ℤ) 2).rows)) ∧
    (0 < (Value.mk ([1, 0, 0, 1] : List ℤ) 2).rows ∧
        (Value.mk ([1, 0, 0, 1] : List ℤ) 2).nums.length =
          (Value.mk ([1, 0, 0, 1] : List ℤ) 2).rows * (Value.mk ([5, 7] : List ℤ) 2).rows →
      (matrixMultiply (Value.mk ([1, 0, 0, 1] : List ℤ) 2) (Value.mk [5, 7] 2)).valid ∧
      (matrixMultiply (Value.mk ([1, 0, 0, 1] : List ℤ) 2) (Value.mk [5, 7] 2)).rows =
        (Value.mk ([1, 0, 0, 1] : List ℤ) 2).rows ∧
      (matrixMultiply (Value.mk ([1, 0, 0, 1] : List ℤ) 2) (Value.mk [5, 7] 2)).cols =
        ((Value.mk ([5, 7] : List ℤ) 2).nums.length + (Value.mk ([5, 7] : List ℤ) 2).rows - 1) /
          (Value.mk ([5, 7] : List ℤ) 2).rows ∧
      ((Value.mk ([5, 7] : List ℤ) 2).rows ∣ (Value.mk ([5, 7] : List ℤ) 2).nums.length →
        (matrixMultiply (Value.mk ([1, 0, 0, 1] : List ℤ) 2) (Value.mk [5, 7] 2)).cols =
          (Value.mk ([5, 7] : List ℤ) 2).cols) ∧
      ∀ row col, row < (Value.mk ([1, 0, 0, 1] : List ℤ) 2).rows →
          0 < (Value.mk ([5, 7] : List ℤ) 2).rows →
          (col + 1) * (Value.mk ([5, 7] : List ℤ) 2).rows ≤
            (Value.mk ([5, 7] : List ℤ) 2).nums.length →
        (matrixMultiply (Value.mk ([1, 0, 0, 1] : List ℤ) 2) (Value.mk [5, 7] 2)).entry row col =
          ((List.range (Value.mk ([1, 0, 0, 1] : List ℤ) 2).cols).map
            (fun k => (Value.mk ([1, 0, 0, 1] : List ℤ) 2).entry row k *
              (Value.mk ([5, 7] : List ℤ) 2).entry k col)).sum) ∧
    (∀ v : Value ℤ, v.dimensions = 1 → v.nums.length = 2 →
      matrixMultiply (Value.mk [1, 0, 0, 1] 2) v = v)) :=
  ⟨by decide,
    matrixMultiply_spec (Value.mk [1, 0, 0, 1] 2) (Value.mk [5, 7] 2) (by decide)⟩

/-! ### C10: transpose is an involution on coherent shapes -/

/-- C10 (counterexample): the empty-but-valid value `⟨[], rows 2⟩` is valid and
has `dimensions = 2` (a matrix with zero columns), yet transposing it twice
does not restore its row count: the first transpose produces `⟨[], 0⟩`, whose
own `cols` is a division by zero (`NaN` in JavaScript, `0` in this model — both
different from 2), so the double transpose has row count 0 (JavaScript: `NaN`),
not 2. -/
theorem transpose_counterexample :
    (Value.mk ([] : List ℚ) 2).valid ∧
    (Value.mk ([] : List ℚ) 2).dimensions = 2 ∧
    transpose (transpose (Value.mk ([] : List ℚ) 2)) ≠ Value.mk ([] : List ℚ) 2 := by
  refine ⟨by decide, by decide, ?_⟩
  intro h
  have : (transpose (transpose (Value.mk ([] : List ℚ) 2))).rows = 2 := by rw [h]
  simp [transpose, Value.cols] at this

theorem transpose_nums {α : Type} [Zero α] (x : Value α) :
    (transpose x).nums = x.nums.mapIdx (fun p v =>
      if p < x.rows * x.cols then x.entry (p / x.cols) (p % x.cols) else v) := rfl

theorem transpose_rows {α : Type} [Zero α] (x : Value α) :
    (transpose x).rows = x.cols := rfl

/-- C10 (amended): for every valid `Value` with at least one component whose
row count divides its component count (every scalar, vector or matrix the
program constructs has these properties), `transpose` is an involution:
transposing twice restores the component sequence and the row count exactly. -/
theorem transpose_transpose {α : Type} [Zero α] (x : Value α)
    (hv : x.valid) (hl : 0 < x.nums.length) (hd : x.rows ∣ x.nums.length) :
    transpose (transpose x) = x := by
  obtain ⟨c, hc⟩ := hd
  have hrowpos : 0 < x.rows := hv
  have hcols : x.cols = c := by
    unfold Value.cols
    rw [hc, Nat.mul_div_cancel_left _ hrowpos]
  have hcpos : 0 < c := by
    rcases Nat.eq_zero_or_pos c with h | h
    · rw [h, Nat.mul_zero] at hc
      omega
    · exact h
  have hlen1 : (transpose x).nums.length = x.nums.length := by
    rw [transpose_nums, List.length_mapIdx]
  have hcols1 : (transpose x).cols = x.rows := by
    unfold Value.cols
    rw [hlen1, transpose_rows, hcols, hc, Nat.mul_div_cancel _ hcpos]
  have hlen2 : (transpose (transpose x)).nums.length = x.nums.length := by
    rw [transpose_nums, List.length_mapIdx, hlen1]
  have hrows2 : (transpose (transpose x)).rows = x.rows := by
    rw [transpose_rows, hcols1]
  have getD_mapIdx : ∀ (l : List α) (f : ℕ → α → α) (d : α) (p : ℕ), p < l.length →
      (l.mapIdx f).getD p d = f p (l.getD p d) := by
    intro l f d p hp
    rw [List.getD_eq_getElem _ _ (by simpa using hp), List.getElem_mapIdx,
      List.getD_eq_getElem _ _ hp]
  have hnums2 : (transpose (transpose x)).nums = x.nums := by
    apply List.ext_getElem hlen2
    intro p hp hp'
    rw [← List.getD_eq_getElem _ 0 hp, ← List.getD_eq_getElem _ 0 hp']
    rw [transpose_nums (transpose x)]
    rw [getD_mapIdx _ _ _ p (by rw [hlen1]; exact hp')]
    rw [transpose_rows, hcols, hcols1]
    have hpn : p < x.rows * c := by
      rw [← hc]
      exact hp'
    have hdivlt : p / x.rows < c := by
      rw [Nat.div_lt_iff_lt_mul hrowpos]
      rw [Nat.mul_comm] at hpn
      exact hpn
    have hmodlt : p % x.rows < x.rows := Nat.mod_lt _ hrowpos
    rw [if_pos (by rw [Nat.mul_comm] at hpn; exact hpn)]
    -- the inner read hits `transpose x` at position (p % rows) * c + p / rows
    unfold Value.entry Value.index
    rw [transpose_rows, hcols]
    have hq : p % x.rows * c + p / x.rows < x.nums.length := by
      rw [hc]
      calc p % x.rows * c + p / x.rows < p % x.rows * c + c := by omega
        _ = (p % x.rows + 1) * c := by ring
        _ ≤ x.rows * c := Nat.mul_le_mul_right c (by omega)
    rw [transpose_nums]
    rw [getD_mapIdx _ _ _ _ hq]
    rw [if_pos (by rw [hcols, ← hc]; exact hq)]
    unfold Value.entry Value.index
    rw [hcols]
    have hq1 : (p % x.rows * c + p / x.rows) / c = p % x.rows := by
      rw [Nat.mul_comm (p % x.rows) c, Nat.mul_add_div hcpos, Nat.div_eq_of_lt hdivlt,
        Nat.add_zero]
    have hq2 : (p % x.rows * c + p / x.rows) % c = p / x.rows := by
      rw [Nat.mul_comm (p % x.rows) c, Nat.mul_add_mod, Nat.mod_eq_of_lt hdivlt]
    rw [hq1, hq2]
    have hidx : p / x.rows * x.rows + p % x.rows = p := by
      rw [Nat.mul_comm, Nat.div_add_mod]
    rw [hidx]
  rcases hval : transpose (transpose x) with ⟨n2, r2⟩
  rcases hxval : x with ⟨nx, rx⟩
  rw [hval] at hnums2 hrows2
  rw [hxval] at hnums2 hrows2
  simp only at hnums2 hrows2
  rw [hnums2, hrows2]

/-- C10 (witness): `transpose_transpose` applied to the 2×2 matrix
`((1, 2), (3, 4))` over ℤ. -/
theorem transpose_transpose_witness :
    (Value.mk ([1, 2, 3, 4] : List ℤ) 2).valid ∧
    0 < (Value.mk ([1, 2, 3, 4] : List ℤ) 2).nums.length ∧
    (Value.mk ([1, 2, 3, 4] : List ℤ) 2).rows ∣ (Value.mk ([1, 2, 3, 4] : List ℤ) 2).nums.length ∧
    transpose (transpose (Value.mk ([1, 2, 3, 4] : List ℤ) 2)) =
      Value.mk ([1, 2, 3, 4] : List ℤ) 2 :=
  ⟨by decide, by decide, by decide,
    transpose_transpose (Value.mk [1, 2, 3, 4] 2) (by decide) (by decide) (by decide)⟩

/-! ### C8: stringification in Hexadecimal mode

The display-mode enum and `Value.stringify` of value.ts, modelled for
integer-valued components (the hex32 mode is only offered by the engine when
every component is an integer, and the claim's counterexample and amendment
concern integers; `Number.prototype.toString(16)` on an integer-valued double
is the exact signed hexadecimal numeral used here). -/

/-- `enum ValueMode { Decimal, Hexadecimal }` of value.ts. -/
inductive ValueMode where
  | Decimal : ValueMode
  | Hexadecimal : ValueMode
  deriving Repr, DecidableEq

/-- One lowercase hexadecimal digit, as produced by `toString(16)`. -/
def natHexDigit (n : ℕ) : Char :=
  if n < 10 then Char.ofNat ('0'.toNat + n) else Char.ofNat ('a'.toNat + (n - 10))

/-- Hexadecimal digits of a natural number, most significant first (the fuel
argument makes the recursion structural; `n + 1` steps always suffice). -/
def natHexAux : ℕ → ℕ → List Char
  | 0, _ => []
  | fuel + 1, n =>
    if n < 16 then [natHexDigit n] else natHexAux fuel (n / 16) ++ [natHexDigit (n % 16)]

def natHexDigits (n : ℕ) : List Char := natHexAux (n + 1) n

/-- `x.toString(16)` for an integer-valued JavaScript number: the plain
hexadecimal numeral, with a leading minus sign when `x < 0` (JavaScript does
NOT wrap to unsigned here). -/
def jsToString16 (x : ℤ) : List Char :=
  if x < 0 then '-' :: natHexDigits x.natAbs else natHexDigits x.toNat

/-- `s.substr(-8)` for a string of length at least 8: the last 8 characters. -/
def jsLast8 (s : List Char) : List Char := s.drop (s.length - 8)

/-- The Hexadecimal branch of `stringifyScalar` of value.ts:
`'0x' + ('00000000' + x.toString(16)).substr(-8)`. -/
def hexScalarString (x : ℤ) : String :=
  String.mk ('0' :: 'x' :: jsLast8 (List.replicate 8 '0' ++ jsToString16 x))

/-- `stringifyScalar(x, mode)` of value.ts (`x.toString()` renders an
integer-valued number as its decimal numeral). -/
def stringifyScalar (x : ℤ) : ValueMode → String
  | ValueMode.Decimal => toString x
  | ValueMode.Hexadecimal => hexScalarString x

/-- `stringifyVector` of value.ts: parenthesised, comma-space separated. -/
def stringifyVector (l : List ℤ) (m : ValueMode) : String :=
  "(" ++ String.intercalate ", " (l.map (fun x => stringifyScalar x m)) ++ ")"

/-- `Value.stringify(mode)` of value.ts: dispatches on `dimensions`
(scalar / vector / matrix-as-list-of-columns / `'error'`). -/
def Value.stringify (v : Value ℤ) (m : ValueMode) : String :=
  if v.dimensions = 0 then stringifyScalar (v.nums.getD 0 0) m
  else if v.dimensions = 1 then stringifyVector v.nums m
  else if v.dimensions = 2 then
    "(" ++ String.intercalate ", "
      ((List.range v.cols).map (fun i => stringifyVector (v.col i).nums m)) ++ ")"
  else "error"

/-- The claim's description of hex formatting, stated in its own words: `"0x"`
followed by the value cast to an unsigned 32-bit integer (i.e. reduced modulo
2³²), zero-padded to exactly 8 hexadecimal digits.  Used only for comparison
with the code's `hexScalarString`. -/
def hexScalarStringSpec (x : ℤ) : String :=
  String.mk ('0' :: 'x' ::
    (List.replicate (8 - (natHexDigits (x.emod 4294967296).toNat).length) '0' ++
      natHexDigits (x.emod 4294967296).toNat))

/-- C8 (counterexample): for the component `-1`, the code prints
`"0x000000-1"` (the minus sign of `toString(16)` survives, then the string is
clipped to its last 8 characters), not the unsigned 32-bit wrap
`"0xffffffff"` prescribed by the claim. -/
theorem hexStringify_counterexample :
    (Value.scalar (-1 : ℤ)).stringify ValueMode.Hexadecimal = "0x000000-1" ∧
    hexScalarStringSpec (-1) = "0xffffffff" ∧
    (Value.scalar (-1 : ℤ)).stringify ValueMode.Hexadecimal ≠ hexScalarStringSpec (-1) := by
  refine ⟨by decide, by decide, by decide⟩

theorem natHexAux_length : ∀ (fuel n k : ℕ), n < fuel → n < 16 ^ k → 0 < k →
    (natHexAux fuel n).length ≤ k := by
  intro fuel
  induction fuel with
  | zero => omega
  | succ m ih =>
    intro n k hfuel hpow hk
    unfold natHexAux
    by_cases h16 : n < 16
    · simpa [h16] using hk
    · rw [if_neg h16, List.length_append]
      have hk2 : 2 ≤ k := by
        by_contra hcon
        have : k = 1 := by omega
        rw [this] at hpow
        simp at hpow
        omega
      have hdivpow : n / 16 < 16 ^ (k - 1) := by
        have h16pos : 0 < 16 := by norm_num
        rw [Nat.div_lt_iff_lt_mul h16pos]
        calc n < 16 ^ k := hpow
          _ = 16 ^ (k - 1) * 16 := by
            rw [← Nat.pow_succ]
            congr 1
            omega
      have hdivfuel : n / 16 < m := by
        have : n / 16 < n := Nat.div_lt_self (by omega) (by norm_num)
        omega
      have := ih (n / 16) (k - 1) hdivfuel hdivpow (by omega)
      simp only [List.length_cons, List.length_nil]
      omega

/-- C8 (amended): on the hex-eligible domain — integer components `x` with
`0 ≤ x ≤ 0xFFFFFFFF`, the only components for which the engine offers hex32
mode — Hexadecimal stringification is exactly `"0x"` plus the 8-digit
zero-padded lowercase hexadecimal numeral of `x` (on this domain the unsigned
32-bit cast is the identity, so this agrees with the claim's formula);
negative components are NOT wrapped modulo 2³². -/
theorem hexStringify_amended (x : ℤ) (h0 : 0 ≤ x) (h1 : x ≤ 4294967295) :
    (Value.scalar x).stringify ValueMode.Hexadecimal = hexScalarStringSpec x := by
  have hdim : (Value.scalar x).dimensions = 0 := rfl
  have hmod : x.emod 4294967296 = x := Int.emod_eq_of_lt h0 (by omega)
  have hlen : (natHexDigits x.toNat).length ≤ 8 := by
    apply natHexAux_length _ _ 8 (by omega) _ (by norm_num)
    have : x.toNat ≤ 4294967295 := by omega
    calc x.toNat ≤ 4294967295 := this
      _ < 16 ^ 8 := by norm_num
  show stringifyScalar ((Value.scalar x).nums.getD 0 0) ValueMode.Hexadecimal = _
  show hexScalarString x = hexScalarStringSpec x
  unfold hexScalarString hexScalarStringSpec jsToString16 jsLast8
  rw [if_neg (by omega), hmod]
  congr 1
  congr 2
  set s := natHexDigits x.toNat with hs
  have hsplit : (List.replicate 8 '0' : List Char) =
      List.replicate s.length '0' ++ List.replicate (8 - s.length) '0' := by
    rw [← List.replicate_add]
    congr 1
    omega
  rw [List.length_append, List.length_replicate]
  have hdropn : 8 + s.length - 8 = s.length := by omega
  rw [hdropn, hsplit, List.append_assoc, List.drop_left']
  rw [List.length_replicate]

/-- C8 (witness): `hexStringify_amended` applied to the component 42, which
prints as `"0x0000002a"`. -/
theorem hexStringify_amended_witness :
    (0 : ℤ) ≤ 42 ∧ (42 : ℤ) ≤ 4294967295 ∧
    (Value.scalar (42 : ℤ)).stringify ValueMode.Hexadecimal = hexScalarStringSpec 42 ∧
    hexScalarStringSpec 42 = "0x0000002a" :=
  ⟨by decide, by decide, hexStringify_amended 42 (by decide) (by decide), by decide⟩

/-! ### Real-valued operator layer (extension.ts functions using `Math.sqrt`/trig)

`Math.sqrt`, `Math.asin`, `Math.acos` and `Math.pow` are modelled by their
exact real counterparts (`Real.sqrt`, `Real.arcsin`, `Real.arccos`,
`Real.rpow`); floating-point rounding is idealised away. -/

section RealOps

open Classical

/-- `magnitude(x)` of extension.ts: invalid unless `x` is a vector; otherwise
the scalar `Math.sqrt` of the accumulated sum of squares. -/
noncomputable def magnitude (x : Value ℝ) : Value ℝ :=
  if x.dimensions ≠ 1 then Value.invalid
  else Value.scalar (Real.sqrt ((x.nums.map (fun v => v * v)).sum))

/-- `normalize(x)` of extension.ts: invalid unless `x` is a vector; otherwise
multiplies every component by `invLength = 1.0 / magnitude(x)[0]`. -/
noncomputable def normalize (x : Value ℝ) : Value ℝ :=
  if x.dimensions ≠ 1 then Value.invalid
  else unary x (fun v => v * (1 / (magnitude x).nums.getD 0 0))

/-- The `negate` unary of extension.ts. -/
def negate [Neg α] (x : Value α) : Value α := unary x (fun v => -v)

/-- The `abs` unary of extension.ts, literally `Math.abs(-x)` per component. -/
def absV (x : Value ℝ) : Value ℝ := unary x (fun v => |(-v)|)

/-- The `asin` unary of extension.ts. -/
noncomputable def asinV (x : Value ℝ) : Value ℝ := unary x Real.arcsin

/-- The `acos` unary of extension.ts. -/
noncomputable def acosV (x : Value ℝ) : Value ℝ := unary x Real.arccos

/-- `angle(a, b)` of extension.ts: invalid unless both are vectors of the same
length 2 or 3, both with nonzero magnitude; otherwise
`cos = dot(normalize a, normalize b)`, and if `cosAngle[0] > Math.sqrt(2)/2`
(NOT the absolute value) the result is `abs(asin(sin))` with `sin` the 2-D
pseudo-cross or the magnitude of the 3-D cross of the normalized inputs,
else `acos(cosAngle)`. -/
noncomputable def angle (a b : Value ℝ) : Value ℝ :=
  if a.dimensions ≠ 1 ∨ b.dimensions ≠ 1 ∨ a.nums.length ≠ b.nums.length ∨
      a.nums.length < 2 ∨ 3 < a.nums.length ∨
      (magnitude a).nums.getD 0 0 = 0 ∨ (magnitude b).nums.getD 0 0 = 0 then
    Value.invalid
  else
    let normA := normalize a
    let normB := normalize b
    let cosAngle := dot normA normB
    if Real.sqrt 2 / 2 < cosAngle.nums.getD 0 0 then
      absV (asinV (if a.nums.length = 2 then
          Value.scalar (normA.nums.getD 0 0 * normB.nums.getD 1 0 -
            normA.nums.getD 1 0 * normB.nums.getD 0 0)
        else magnitude (cross normA normB)))
    else acosV cosAngle

/-- `project(a, b)` of extension.ts: the invalid `dot` is propagated, a zero
dot product short-circuits to the zero vector shaped like `a`, otherwise
`b * (dot(a,b) / dot(b,b))` componentwise. -/
noncomputable def project (a b : Value ℝ) : Value ℝ :=
  let d := dot a b
  if ¬d.valid then d
  else if d.nums.getD 0 0 = 0 then zeroOf a
  else mulPairs b (divPairs d (dot b b))

/-- `reject(a, b)` of extension.ts: `a - project(a, b)` componentwise. -/
noncomputable def reject (a b : Value ℝ) : Value ℝ := subPairs a (project a b)

/-- `powPairs` of extension.ts (`Math.pow`, modelled by `Real.rpow`; the two
differ on negative bases, which no theorem below evaluates). -/
noncomputable def powPairs (a b : Value ℝ) : Value ℝ :=
  opPairs a b (fun x y => Real.rpow x y)

/-! ### C7: `xyz` and `plane` -/

/-- The module scope of extension.ts contains no binding named `a` (the only
`a`s are parameters of other functions), yet the body of `xyz` reads the free
identifier `a`.  This definition records that (absent) binding. -/
def moduleVarA : Option (Value ℝ) := none

/-- `xyz(v)` of extension.ts.  Its guard reads `a.dimensions` and `a.rows`
where `a` is a free identifier with no binding in scope, so in strict-mode
JavaScript every call throws `ReferenceError: a is not defined` before
touching `v`; the intended body (per its own doc comment, about `v`) is kept
in the unreachable `some` branch. -/
def xyz (v : Value ℝ) : Except String (Value ℝ) :=
  match moduleVarA with
  | none => Except.error "ReferenceError: a is not defined"
  | some a =>
    if a.dimensions ≠ 1 ∨ a.rows < 3 then Except.ok Value.invalid
    else Except.ok ⟨v.nums.take 3, (v.nums.take 3).length⟩

/-- `plane(direction, position)` of extension.ts: evaluates
`normalize(xyz(direction))`, then `xyz(position)`, returns invalid if either
is invalid, else builds `new Value([...n, negate(dot(n, v))])`.  Since `xyz`
always throws, everything after the first call is unreachable (in the source
the final array literal even inserts the `negate(...)` Value object itself,
not its component — modelled here as appending that single component). -/
noncomputable def plane (direction position : Value ℝ) : Except String (Value ℝ) :=
  match xyz direction with
  | Except.error e => Except.error e
  | Except.ok xd =>
    let n := normalize xd
    match xyz position with
    | Except.error e => Except.error e
    | Except.ok v =>
      if ¬n.valid ∨ ¬v.valid then Except.ok Value.invalid
      else Except.ok ⟨n.nums ++ [(negate (dot n v)).nums.getD 0 0],
        (n.nums ++ [(negate (dot n v)).nums.getD 0 0]).length⟩

/-- `pointPlaneDistance(point, plane)` of extension.ts (also unreachable past
its `xyz` call). -/
noncomputable def pointPlaneDistance (point plane0 : Value ℝ) : Except String (Value ℝ) :=
  match xyz point with
  | Except.error e => Except.error e
  | Except.ok v =>
    if ¬v.valid ∨ plane0.dimensions ≠ 1 ∨ plane0.nums.length < 4 then Except.ok Value.invalid
    else Except.ok (dot ⟨v.nums ++ [1], (v.nums ++ [1]).length⟩ plane0)

/-- C7: the claim says `plane(direction, position)` returns the normalized
4-component plane, or the invalid sentinel on bad shapes.  In the code `xyz`
dereferences the undefined identifier `a`, so `plane` throws a
`ReferenceError` on every input and never returns any Value at all. -/
theorem plane_always_throws (direction position : Value ℝ) :
    plane direction position = Except.error "ReferenceError: a is not defined" := rfl

end RealOps

/-! ### C6: `angle` -/

theorem dim_one_intro {α : Type} (v : Value α)
    (h1 : v.nums.length ≠ 1) (h2 : v.nums.length = v.rows) : v.dimensions = 1 := by
  unfold Value.dimensions
  rw [if_neg h1, if_pos h2]

theorem dim_one_elim {α : Type} (v : Value α) (h : v.dimensions = 1) :
    v.nums.length ≠ 1 ∧ v.nums.length = v.rows := by
  unfold Value.dimensions at h
  split_ifs at h with h1 h2 h3 <;>
    first
    | exact ⟨h1, h2⟩
    | exact absurd h (by norm_num)

theorem sumSq_nonneg (l : List ℝ) : 0 ≤ (l.map (fun v => v * v)).sum := by
  induction l with
  | nil => simp
  | cons a t ih =>
    simp only [List.map_cons, List.sum_cons]
    exact add_nonneg (mul_self_nonneg a) ih

theorem sumSq_eq_zero_iff (l : List ℝ) : (l.map (fun v => v * v)).sum = 0 ↔ ∀ x ∈ l, x = 0 := by
  induction l with
  | nil => simp
  | cons a t ih =>
    simp only [List.map_cons, List.sum_cons, List.mem_cons]
    rw [add_eq_zero_iff_of_nonneg (mul_self_nonneg a) (sumSq_nonneg t), mul_self_eq_zero, ih]
    constructor
    · rintro ⟨h1, h2⟩ x (rfl | hx)
      · exact h1
      · exact h2 x hx
    · intro h
      exact ⟨h a (Or.inl rfl), fun x hx => h x (Or.inr hx)⟩

theorem magnitude_of_vector (x : Value ℝ) (h : x.dimensions = 1) :
    magnitude x = Value.scalar (Real.sqrt ((x.nums.map (fun v => v * v)).sum)) := by
  unfold magnitude
  rw [if_neg (not_not_intro h)]

theorem magnitude_eq_zero_iff (x : Value ℝ) (h : x.dimensions = 1) :
    ((magnitude x).nums.getD 0 0 = 0 ↔ ∀ v ∈ x.nums, v = 0) := by
  rw [magnitude_of_vector x h]
  show Real.sqrt _ = 0 ↔ _
  rw [Real.sqrt_eq_zero']
  constructor
  · intro hle
    exact (sumSq_eq_zero_iff _).mp (le_antisymm hle (sumSq_nonneg _))
  · intro hz
    rw [(sumSq_eq_zero_iff _).mpr hz]

theorem normalize_of_vector (x : Value ℝ) (h : x.dimensions = 1) :
    normalize x = unary x (fun v => v * (1 / (magnitude x).nums.getD 0 0)) := by
  unfold normalize
  rw [if_neg (not_not_intro h)]

/-- The shape condition under which the claim says `angle` is valid: both
vectors, equal lengths 2 or 3, both nonzero. -/
def angleOk (a b : Value ℝ) : Prop :=
  a.dimensions = 1 ∧ b.dimensions = 1 ∧ a.nums.length = b.nums.length ∧
    2 ≤ a.nums.length ∧ a.nums.length ≤ 3 ∧
    (∃ x ∈ a.nums, x ≠ 0) ∧ (∃ x ∈ b.nums, x ≠ 0)

/-- C6 (amended): `angle(a, b)` is valid exactly when both operands are
vectors of equal length 2 or 3 and both are nonzero; when valid it computes
`cos = dot(normalize a, normalize b)` and branches on `cos > sqrt(2)/2`
(the signed cosine, NOT its absolute value): above the threshold the result
is derived via arcsine of the 2-D pseudo-cross (length 2) or of the magnitude
of the 3-D cross (length 3), otherwise via arccosine of `cos`; the returned
scalar is always a non-negative number of radians. -/
theorem angle_spec (a b : Value ℝ) :
    ((angle a b).valid ↔ angleOk a b) ∧
    (angleOk a b →
      angle a b = (if Real.sqrt 2 / 2 <
            (dot (normalize a) (normalize b)).nums.getD 0 0 then
          absV (asinV (if a.nums.length = 2 then
              Value.scalar ((normalize a).nums.getD 0 0 * (normalize b).nums.getD 1 0 -
                (normalize a).nums.getD 1 0 * (normalize b).nums.getD 0 0)
            else magnitude (cross (normalize a) (normalize b))))
        else acosV (dot (normalize a) (normalize b))) ∧
      0 ≤ (angle a b).nums.getD 0 0) := by
  classical
  have hGiff : ¬(a.dimensions ≠ 1 ∨ b.dimensions ≠ 1 ∨ a.nums.length ≠ b.nums.length ∨
      a.nums.length < 2 ∨ 3 < a.nums.length ∨
      (magnitude a).nums.getD 0 0 = 0 ∨ (magnitude b).nums.getD 0 0 = 0) ↔ angleOk a b := by
    unfold angleOk
    push_neg
    constructor
    · rintro ⟨h1, h2, h3, h4, h5, h6, h7⟩
      refine ⟨h1, h2, h3, h4, h5, ?_, ?_⟩
      · have := (magnitude_eq_zero_iff a h1).not.mp h6
        push_neg at this
        exact this
      · have := (magnitude_eq_zero_iff b h2).not.mp h7
        push_neg at this
        exact this
    · rintro ⟨h1, h2, h3, h4, h5, h6, h7⟩
      refine ⟨h1, h2, h3, h4, h5, ?_, ?_⟩
      · rw [Ne, magnitude_eq_zero_iff a h1]
        push_neg
        exact h6
      · rw [Ne, magnitude_eq_zero_iff b h2]
        push_neg
        exact h7
  by_cases hG : a.dimensions ≠ 1 ∨ b.dimensions ≠ 1 ∨ a.nums.length ≠ b.nums.length ∨
      a.nums.length < 2 ∨ 3 < a.nums.length ∨
      (magnitude a).nums.getD 0 0 = 0 ∨ (magnitude b).nums.getD 0 0 = 0
  · have hres : angle a b = Value.invalid := by
      unfold angle
      rw [if_pos hG]
    have hnotok : ¬ angleOk a b := fun hok => (hGiff.mpr hok) hG
    refine ⟨iff_of_false ?_ hnotok, fun hok => absurd hok hnotok⟩
    rw [hres]
    simp [Value.valid, Value.invalid]
  · have hok : angleOk a b := hGiff.mp hG
    obtain ⟨ha1, hb1, hlen, hlen2, hlen3, -, -⟩ := hok
    have hres : angle a b = (if Real.sqrt 2 / 2 <
          (dot (normalize a) (normalize b)).nums.getD 0 0 then
        absV (asinV (if a.nums.length = 2 then
            Value.scalar ((normalize a).nums.getD 0 0 * (normalize b).nums.getD 1 0 -
              (normalize a).nums.getD 1 0 * (normalize b).nums.getD 0 0)
          else magnitude (cross (normalize a) (normalize b))))
      else acosV (dot (normalize a) (normalize b))) := by
      unfold angle
      rw [if_neg hG]
    -- facts about the normalized inputs
    have hnalen : (normalize a).nums.length = a.nums.length := by
      rw [normalize_of_vector a ha1]
      simp [unary]
    have hnarows : (normalize a).rows = a.rows := by
      rw [normalize_of_vector a ha1]
      rfl
    have hnblen : (normalize b).nums.length = b.nums.length := by
      rw [normalize_of_vector b hb1]
      simp [unary]
    have hnbrows : (normalize b).rows = b.rows := by
      rw [normalize_of_vector b hb1]
      rfl
    have hna1 : (normalize a).dimensions = 1 := by
      obtain ⟨hne, heq⟩ := dim_one_elim a ha1
      exact dim_one_intro _ (by rw [hnalen]; exact hne) (by rw [hnalen, hnarows]; exact heq)
    have hnb1 : (normalize b).dimensions = 1 := by
      obtain ⟨hne, heq⟩ := dim_one_elim b hb1
      exact dim_one_intro _ (by rw [hnblen]; exact hne) (by rw [hnblen, hnbrows]; exact heq)
    have hdotred : dot (normalize a) (normalize b) =
        Value.scalar (((List.range (max (normalize a).nums.length
          (normalize b).nums.length)).map
          (fun i => (normalize a).nums.getD i 0 * (normalize b).nums.getD i 0)).sum) := by
      unfold dot
      rw [if_neg]
      push_neg
      exact ⟨by rw [hnalen, hnblen]; exact hlen, hna1, hnb1⟩
    have hvalid : (angle a b).valid ∧ 0 ≤ (angle a b).nums.getD 0 0 := by
      rw [hres]
      by_cases hbr : Real.sqrt 2 / 2 < (dot (normalize a) (normalize b)).nums.getD 0 0
      · rw [if_pos hbr]
        have hsin : (if a.nums.length = 2 then
              Value.scalar ((normalize a).nums.getD 0 0 * (normalize b).nums.getD 1 0 -
                (normalize a).nums.getD 1 0 * (normalize b).nums.getD 0 0)
            else magnitude (cross (normalize a) (normalize b))) =
            (if a.nums.length = 2 then
              Value.scalar ((normalize a).nums.getD 0 0 * (normalize b).nums.getD 1 0 -
                (normalize a).nums.getD 1 0 * (normalize b).nums.getD 0 0)
            else Value.scalar (Real.sqrt
              (((cross (normalize a) (normalize b)).nums.map (fun v => v * v)).sum))) := by
          by_cases h2 : a.nums.length = 2
          · rw [if_pos h2, if_pos h2]
          · rw [if_neg h2, if_neg h2]
            have hcrossred : cross (normalize a) (normalize b) =
                ⟨[(normalize a).nums.getD 1 0 * (normalize b).nums.getD 2 0 -
                    (normalize a).nums.getD 2 0 * (normalize b).nums.getD 1 0,
                  (normalize a).nums.getD 2 0 * (normalize b).nums.getD 0 0 -
                    (normalize a).nums.getD 0 0 * (normalize b).nums.getD 2 0,
                  (normalize a).nums.getD 0 0 * (normalize b).nums.getD 1 0 -
                    (normalize a).nums.getD 1 0 * (normalize b).nums.getD 0 0], 3⟩ := by
              unfold cross
              rw [if_neg]
              push_neg
              have h3 : a.nums.length = 3 := by omega
              exact ⟨hna1, hnb1, by rw [hnalen, h3], by rw [hnblen, ← hlen, h3]⟩
            rw [magnitude_of_vector _ (by
              rw [hcrossred]
              exact dim_one_intro _ (by simp) (by simp))]
        rw [hsin]
        by_cases h2 : a.nums.length = 2
        · rw [if_pos h2]
          refine ⟨by simp [absV, asinV, unary, Value.scalar, Value.valid], ?_⟩
          show 0 ≤ |(-(Real.arcsin _))|
          exact abs_nonneg _
        · rw [if_neg h2]
          refine ⟨by simp [absV, asinV, unary, Value.scalar, Value.valid], ?_⟩
          show 0 ≤ |(-(Real.arcsin _))|
          exact abs_nonneg _
      · rw [if_neg hbr, hdotred]
        refine ⟨by simp [acosV, unary, Value.scalar, Value.valid], ?_⟩
        show 0 ≤ Real.arccos _
        exact Real.arccos_nonneg _
    refine ⟨iff_of_true hvalid.1 (hGiff.mp hG), fun _ => ⟨hres, hvalid.2⟩⟩

/-- C6 (counterexample): for `a = (1, 0)` and `b = (-1, 0)` the cosine of the
normalized inputs is `-1`, whose absolute value exceeds `sqrt(2)/2`, so the
claim prescribes the arcsine-derived result (which would be `|asin(0)| = 0`);
the code instead takes the arccosine branch and returns the scalar π ≠ 0:
only `cos > sqrt(2)/2`, not `|cos| > sqrt(2)/2`, selects the arcsine path. -/
theorem angle_counterexample :
    |(dot (normalize (Value.mk [1, 0] 2)) (normalize (Value.mk [-1, 0] 2))).nums.getD 0 0| >
      Real.sqrt 2 / 2 ∧
    angle (Value.mk [1, 0] 2) (Value.mk [-1, 0] 2) = Value.scalar Real.pi ∧
    angle (Value.mk [1, 0] 2) (Value.mk [-1, 0] 2) ≠
      absV (asinV (Value.scalar
        ((normalize (Value.mk [1, 0] 2)).nums.getD 0 0 *
            (normalize (Value.mk [-1, 0] 2)).nums.getD 1 0 -
          (normalize (Value.mk [1, 0] 2)).nums.getD 1 0 *
            (normalize (Value.mk [-1, 0] 2)).nums.getD 0 0))) := by
  classical
  have ha1 : (Value.mk ([1, 0] : List ℝ) 2).dimensions = 1 := by
    apply dim_one_intro <;> simp
  have hb1 : (Value.mk ([-1, 0] : List ℝ) 2).dimensions = 1 := by
    apply dim_one_intro <;> simp
  have hmaga : magnitude (Value.mk [1, 0] 2) = Value.scalar 1 := by
    rw [magnitude_of_vector _ ha1]
    norm_num [Value.scalar]
  have hmagb : magnitude (Value.mk [-1, 0] 2) = Value.scalar 1 := by
    rw [magnitude_of_vector _ hb1]
    norm_num [Value.scalar]
  have hnorma : normalize (Value.mk [1, 0] 2) = Value.mk [1, 0] 2 := by
    rw [normalize_of_vector _ ha1, hmaga]
    norm_num [unary, Value.scalar]
  have hnormb : normalize (Value.mk [-1, 0] 2) = Value.mk [-1, 0] 2 := by
    rw [normalize_of_vector _ hb1, hmagb]
    norm_num [unary, Value.scalar]
  have hdot : dot (normalize (Value.mk [1, 0] 2)) (normalize (Value.mk [-1, 0] 2)) =
      Value.scalar (-1) := by
    rw [hnorma, hnormb]
    unfold dot
    rw [if_neg (by push_neg; exact ⟨rfl, ha1, hb1⟩)]
    norm_num [List.range_succ, Value.scalar]
  have hsqrt2 : Real.sqrt 2 / 2 < 1 := by
    have h1 : Real.sqrt 2 < 2 := by
      nlinarith [Real.sq_sqrt (by norm_num : (0 : ℝ) ≤ 2), Real.sqrt_nonneg 2]
    linarith
  have hsqrt2pos : (0 : ℝ) ≤ Real.sqrt 2 / 2 := by positivity
  have hcos : (dot (normalize (Value.mk [1, 0] 2))
      (normalize (Value.mk [-1, 0] 2))).nums.getD 0 0 = -1 := by
    rw [hdot]
    rfl
  have hangle : angle (Value.mk [1, 0] 2) (Value.mk [-1, 0] 2) = Value.scalar Real.pi := by
    unfold angle
    rw [if_neg (by
      push_neg
      refine ⟨ha1, hb1, rfl, by norm_num, by norm_num, ?_, ?_⟩
      · rw [hmaga]
        norm_num [Value.scalar]
      · rw [hmagb]
        norm_num [Value.scalar])]
    rw [if_neg (by
      rw [hcos]
      intro hcontra
      linarith)]
    rw [hdot]
    show unary (Value.scalar (-1)) Real.arccos = Value.scalar Real.pi
    simp [unary, Value.scalar, Real.arccos_neg_one]
  refine ⟨by rw [hcos]; rw [abs_neg, abs_one]; linarith, hangle, ?_⟩
  rw [hangle, hnorma, hnormb]
  show Value.scalar Real.pi ≠ absV (asinV (Value.scalar _))
  norm_num [absV, asinV, unary, Value.scalar]
  intro hcontra
  exact Real.pi_ne_zero hcontra

/-- C6 (witness): `angle_spec` applied to `(1, 0)` and `(0, 1)`:
the shape condition holds and `angle` is valid there. -/
theorem angle_spec_witness :
    angleOk (Value.mk [1, 0] 2) (Value.mk [0, 1] 2) ∧
    (angle (Value.mk [1, 0] 2) (Value.mk [0, 1] 2)).valid :=
  have hok : angleOk (Value.mk [1, 0] 2) (Value.mk [0, 1] 2) :=
    ⟨by apply dim_one_intro <;> simp, by apply dim_one_intro <;> simp, rfl,
      by norm_num, by norm_num, ⟨1, by norm_num⟩, ⟨1, by norm_num⟩⟩
  ⟨hok, ((angle_spec (Value.mk [1, 0] 2) (Value.mk [0, 1] 2)).1).mpr hok⟩

/-! ### Parser (parser.ts)

`parse` scans a line left to right with a stack of open `Node` contexts and a
`valid` flag, emitting `Scalar` leaves for numeric literals recognised by

  `/^((0x[0-9A-Fa-f]+)|(-?\\d+\\.?\\d*(e[+-]?\\d+)?f?))([^a-zA-Z0-9]|$)/`

`numMatch` below is that regular expression hand-compiled to a deterministic
matcher, literal group by literal group, including the backtracking the regex
engine can perform:
  * hex alternative: shortening the greedy `[0-9A-Fa-f]+` run never helps,
    because the boundary would then sit on a hex digit (alphanumeric), so the
    alternative succeeds iff the character after the maximal run passes
    `[^a-zA-Z0-9]|$`; if it fails the decimal alternative is tried on the
    same input (ordered alternation);
  * decimal alternative: `-?` participates only when digits follow; after the
    maximal integer-digit run, shortening `\\d*` (the fraction) or the
    exponent digits never helps (the boundary would sit on a digit), dropping
    a consumed `f` never helps (the boundary would sit on `f`), and dropping a
    failed exponent group leaves the boundary on `e` (alphanumeric), so the
    only productive backtrack is relinquishing the optional `.`, whose
    boundary `.` always passes the boundary class; both `e` and `f` are
    matched case-sensitively, and there is no leading-decimal alternative. -/

/-- `NodeType` of parser.ts. -/
inductive NodeType where
  | List : NodeType
  | Scalar : NodeType
  | Vector : NodeType
  | Matrix : NodeType
  deriving Repr, DecidableEq

/-- `Node` of parser.ts: type tag, begin/end character offsets (`-1` until
set), the expected closing delimiter (`none` embeds the empty string), and
child nodes.  The source field `end` is called `endPos` here (`end` is a Lean
keyword). -/
inductive Node where
  | mk (type : NodeType) (begin : ℤ) (endPos : ℤ) (delim : Option Char) (items : List Node) :
      Node

def Node.type : Node → NodeType
  | Node.mk t _ _ _ _ => t

def Node.begin : Node → ℤ
  | Node.mk _ b _ _ _ => b

def Node.endPos : Node → ℤ
  | Node.mk _ _ e _ _ => e

def Node.delim : Node → Option Char
  | Node.mk _ _ _ d _ => d

def Node.items : Node → List Node
  | Node.mk _ _ _ _ it => it

/-- A `Scalar` leaf as built in the scan loop: `new Node(i, '')` with
`end = next` and `type = Scalar`. -/
def scalarNode (b e : ℤ) : Node := Node.mk NodeType.Scalar b e none []

/-- The `switch (delim)` of the `Node` constructor. -/
def closerOf (c : Char) : Option Char :=
  if c = '{' then some '}'
  else if c = '[' then some ']'
  else if c = '(' then some ')'
  else none

/-- A still-open node context: its `begin`, expected closer and the children
pushed so far (`type` is still `List` and `end` still `-1` while open). -/
structure Frame where
  begin : ℤ
  delim : Option Char
  items : List Node

/-- `Node.close(end, parent)` of parser.ts, returning the closed node
(`none` when the node is empty and therefore dropped).  The uniformity scan
keeps updating `type`/`count` against their current values, exactly as the
source loop does. -/
def closeNode (fr : Frame) (endPos : ℤ) : Option Node :=
  match fr.items with
  | [] => none
  | first :: rest =>
    let type := rest.foldl (fun t n => if n.type ≠ t then NodeType.List else t) first.type
    let count : ℤ :=
      rest.foldl (fun c n => if (n.items.length : ℤ) ≠ c then -1 else c)
        (first.items.length : ℤ)
    if type = NodeType.Scalar then
      (if fr.items.length = 1 then
        some (Node.mk NodeType.Scalar first.begin first.endPos fr.delim [])
      else
        some (Node.mk NodeType.Vector fr.begin endPos fr.delim fr.items))
    else if type = NodeType.Vector ∧ 1 < count then
      (if fr.items.length = 1 then
        some (Node.mk NodeType.Vector first.begin first.endPos fr.delim first.items)
      else
        some (Node.mk NodeType.Matrix fr.begin endPos fr.delim fr.items))
    else
      some (Node.mk NodeType.List fr.begin endPos fr.delim fr.items)

/-- `[0-9A-Fa-f]`. -/
def isHexDigitChar (c : Char) : Bool :=
  c.isDigit || ('a' ≤ c && c ≤ 'f') || ('A' ≤ c && c ≤ 'F')

/-- `[^a-zA-Z0-9]|$`: end of input or any non-alphanumeric character. -/
def boundaryOk : List Char → Bool
  | [] => true
  | c :: _ => !c.isAlphanum

/-- Length of the maximal leading run of decimal digits. -/
def digitRun (s : List Char) : ℕ := (s.takeWhile Char.isDigit).length

/-- Length of the maximal leading run of hex digits. -/
def hexRun (s : List Char) : ℕ := (s.takeWhile isHexDigitChar).length

/-- The trailing `(e[+-]?\\d+)?f?([^a-zA-Z0-9]|$)` of the decimal alternative,
starting right after the last fraction (or integer) digit: returns how many
extra characters the exponent/`f` suffix consume, or `none` when no
backtrack-free completion exists (see the section comment). -/
def expFCheck : List Char → Option ℕ
  | 'e' :: r =>
    let s1 := if r.head? = some '+' ∨ r.head? = some '-' then 1 else 0
    let r2 := r.drop s1
    let de := digitRun r2
    if de = 0 then none
    else
      match r2.drop de with
      | 'f' :: q2 => if boundaryOk q2 then some (1 + s1 + de + 1) else none
      | q => if boundaryOk q then some (1 + s1 + de) else none
  | 'f' :: r => if boundaryOk r then some 1 else none
  | p => if boundaryOk p then some 0 else none

/-- The decimal alternative `-?\\d+\\.?\\d*(e[+-]?\\d+)?f?` followed by the
boundary: returns the length of the numeric literal (boundary excluded). -/
def decMatch (s : List Char) : Option ℕ :=
  let s1 := if s.head? = some '-' then 1 else 0
  let t1 := s.drop s1
  let d1 := digitRun t1
  if d1 = 0 then none
  else
    match t1.drop d1 with
    | '.' :: u =>
      let d2 := digitRun u
      (match expFCheck (u.drop d2) with
       | some m => some (s1 + d1 + 1 + d2 + m)
       | none => some (s1 + d1))
    | t2 =>
      match expFCheck t2 with
      | some m => some (s1 + d1 + m)
      | none => none

/-- The whole literal regex, hex alternative first. -/
def numMatch (s : List Char) : Option ℕ :=
  match s with
  | '0' :: 'x' :: t =>
    let h := hexRun t
    if 0 < h ∧ boundaryOk (t.drop h) then some (2 + h) else decMatch ('0' :: 'x' :: t)
  | _ => decMatch s

/-- The scan loop of `parse`, one character at a time (the fuel argument makes
the recursion structural; the loop consumes at least one character per step,
so `line.length` steps always suffice).  The stack head is the innermost open
context; the root frame is never popped because its `delim` is `none`. -/
def go : ℕ → List Char → ℕ → Bool → List Frame → List Frame
  | 0, _, _, _, stack => stack
  | _ + 1, [], _, _, stack => stack
  | fuel + 1, c :: rest, i, valid, stack =>
    if (closerOf c).isSome then
      go fuel rest (i + 1) true (⟨(i : ℤ), closerOf c, []⟩ :: stack)
    else
      match stack with
      | [] => []
      | top :: parents =>
        if some c = top.delim then
          let parents2 :=
            match parents with
            | [] => ([] : List Frame)
            | parent :: ps =>
              (match closeNode top ((i : ℤ) + 1) with
               | none => parent
               | some nd => ⟨parent.begin, parent.delim, parent.items ++ [nd]⟩) :: ps
          go fuel rest (i + 1) true parents2
        else if valid then
          if c.isAlpha then go fuel rest (i + 1) false stack
          else if c.isDigit || c = '-' then
            match numMatch (c :: rest) with
            | some n =>
              go fuel ((c :: rest).drop n) (i + n) valid
                (⟨top.begin, top.delim,
                  top.items ++ [scalarNode (i : ℤ) ((i : ℤ) + (n : ℤ))]⟩ :: parents)
            | none => go fuel rest (i + 1) false stack
          else go fuel rest (i + 1) valid stack
        else
          if !(c.isAlphanum || c = '-') then go fuel rest (i + 1) true stack
          else go fuel rest (i + 1) false stack

/-- The trailing singleton-`List` unwrapping of `parse` (fuel-structural). -/
def shedF : ℕ → Node → Node
  | 0, n => n
  | fuel + 1, Node.mk NodeType.List _ _ _ [child] => shedF fuel child
  | _ + 1, n => n

/-- `parse(line)` of parser.ts: runs the scan seeded with the root `List`
frame, then takes `nodes[nodes.length - 1]` — the INNERMOST still-open node —
as a `List` node (its `end` still `-1`), and sheds singleton lists.  Open
frames are never closed at end of input, and outer open frames (the root
included) are simply abandoned. -/
def parse (line : List Char) : Node :=
  match go line.length line 0 true [⟨0, none, []⟩] with
  | [] => Node.mk NodeType.List 0 (-1) none []
  | top :: _ => shedF line.length (Node.mk NodeType.List top.begin (-1) top.delim top.items)

/-! ### C4 and C5: the shipped parser versus the documented literal forms
and end-of-input recovery -/

/-- C4: the claim (and CHANGELOG.md entries 0.0.9/0.0.11) say `parse` accepts
hexadecimal, decimal with either-case exponent and `f`/`F` suffix, and
leading-decimal literals such as `.5`, emitting one `Scalar` spanning the
whole literal.  The shipped regex has no leading-decimal alternative and is
lowercase-only: `".5"` yields a `Scalar` spanning only the `"5"` (positions
1–2), `"123E-4F"` yields no `Scalar` at all (the match fails at `E` and the
scan stays suppressed through the rest), while the lowercase `"123e-4f"` is
accepted in full. -/
theorem parse_literal_forms_bug :
    parse ".5".data = scalarNode 1 2 ∧
    parse "123E-4F".data = Node.mk NodeType.List 0 (-1) none [] ∧
    parse "123e-4f".data = scalarNode 0 7 :=
  ⟨rfl, rfl, rfl⟩

/-- C5: the claim (and CHANGELOG.md 0.0.9) say still-open nodes are
auto-closed at end of input, with classification running and children kept.
The shipped `parse` instead returns `nodes[nodes.length - 1]` — the innermost
still-open node — unclosed: for `"(1,2"` the result is an unclassified `List`
(not a `Vector`) whose `end` is still `-1`; for `"(1,2),(3"` everything
outside the innermost open group — including the already-closed vector
`(1,2)` — is discarded and only the `Scalar` `3` survives; and an open node
with no children (`"("`) is returned as an empty `List`, not discarded. -/
theorem parse_open_groups_bug :
    parse "(1,2".data =
      Node.mk NodeType.List 0 (-1) (some ')') [scalarNode 1 2, scalarNode 3 4] ∧
    parse "(1,2),(3".data = scalarNode 7 8 ∧
    parse "(".data = Node.mk NodeType.List 0 (-1) (some ')') [] :=
  ⟨rfl, rfl, rfl⟩

/-! ### C9: the engine converts an invalid result into an error report and
a full reset to Idle -/

/-- The session state of `ContentProvider` in extension.ts that
`setOperandStr`/`clear` touch: the pending operand, the pending operator
label, the display mode and the captured source text (the vscode `Range` and
the auxiliary stack are presentation-side state not read by this path). -/
structure EngineState where
  operand : Value ℝ
  operator : String
  mode : ValueMode
  sourceString : String

/-- `clear()` of extension.ts: operand := Value.invalid, operator := '',
sourceString := '', mode := Decimal. -/
def clearState : EngineState :=
  ⟨Value.invalid, "", ValueMode.Decimal, ""⟩

/-- The `switch (this.operator)` of `setOperandStr`: applies the pending
binary operator to `(this.operand, operand)`.  `multiply` dispatches to
`matrixMultiply` when one side is a matrix and the other not scalar (swapping
when the matrix is on the right); `plane`/`planeDistance` call into `xyz` and
therefore throw (`Except.error`); any other label (including the empty
pending operator) selects the submitted operand directly. -/
noncomputable def applyPendingOperator (operator : String) (pending operand : Value ℝ) :
    Except String (Value ℝ) :=
  if operator = "add" then Except.ok (addPairs pending operand)
  else if operator = "subtract" then Except.ok (subPairs pending operand)
  else if operator = "divide" then Except.ok (divPairs pending operand)
  else if operator = "multiply" then
    Except.ok (if pending.dimensions = 2 ∧ operand.dimensions ≠ 0 then
        matrixMultiply pending operand
      else if operand.dimensions = 2 ∧ pending.dimensions ≠ 0 then
        matrixMultiply operand pending
      else mulPairs pending operand)
  else if operator = "power" then Except.ok (powPairs pending operand)
  else if operator = "dot" then Except.ok (dot pending operand)
  else if operator = "cross" then Except.ok (cross pending operand)
  else if operator = "angle" then Except.ok (angle pending operand)
  else if operator = "project" then Except.ok (project pending operand)
  else if operator = "reject" then Except.ok (reject pending operand)
  else if operator = "plane" then plane pending operand
  else if operator = "planeDistance" then pointPlaneDistance pending operand
  else Except.ok operand

/-- Outcome of one `setOperandStr` completion step: a thrown exception, the
error report followed by `clear()`, or a valid result becoming the current
selection (with the session state entering the interactive menu loop). -/
inductive SubmitOutcome where
  | thrown (msg : String) : SubmitOutcome
  | errorReset (report : String) (next : EngineState) : SubmitOutcome
  | selected (result : Value ℝ) (next : EngineState) : SubmitOutcome

/-- The completion path of `setOperandStr` in extension.ts: compute `result`
from the pending operator; `if (!result.valid) { report('error'); clear();
return; }`; otherwise the result is the current selection shown to the user. -/
noncomputable def completeOperation (st : EngineState) (operand : Value ℝ) : SubmitOutcome :=
  match applyPendingOperator st.operator st.operand operand with
  | Except.error m => SubmitOutcome.thrown m
  | Except.ok result =>
    if ¬result.valid then SubmitOutcome.errorReset "error" clearState
    else SubmitOutcome.selected result st

/-- C9: whenever applying the pending operator returns (does not throw) and
the result is the invalid sentinel, the engine reports `'error'` and performs
the full reset to Idle — pending operand := invalid, pending operator := '',
captured source text := '' (and mode := Decimal); when the result is valid it
becomes the current selection. -/
theorem engine_error_reset (st : EngineState) (operand result : Value ℝ)
    (h : applyPendingOperator st.operator st.operand operand = Except.ok result) :
    (¬result.valid → completeOperation st operand =
      SubmitOutcome.errorReset "error" ⟨Value.invalid, "", ValueMode.Decimal, ""⟩) ∧
    (result.valid → completeOperation st operand = SubmitOutcome.selected result st) := by
  unfold completeOperation
  rw [h]
  constructor
  · intro hnv
    show (if ¬result.valid then SubmitOutcome.errorReset "error" clearState
      else SubmitOutcome.selected result st) = _
    rw [if_pos hnv]
    rfl
  · intro hv
    show (if ¬result.valid then SubmitOutcome.errorReset "error" clearState
      else SubmitOutcome.selected result st) = _
    rw [if_neg (not_not_intro hv)]

/-- C9 (witness): `engine_error_reset` applied to a session holding pending
operator `add` with pending operand `(1, 2)` and a submitted operand
`(1, 2, 3)`: the shapes mismatch, `addPairs` yields the invalid sentinel, and
the engine reports and resets. -/
theorem engine_error_reset_witness :
    applyPendingOperator "add" (Value.mk [1, 2] 2) (Value.mk [1, 2, 3] 3) =
      Except.ok Value.invalid ∧
    ¬ (Value.invalid (α := ℝ)).valid ∧
    completeOperation ⟨Value.mk [1, 2] 2, "add", ValueMode.Decimal, "(1, 2)"⟩
        (Value.mk [1, 2, 3] 3) =
      SubmitOutcome.errorReset "error" ⟨Value.invalid, "", ValueMode.Decimal, ""⟩ :=
  ⟨rfl, by decide,
    (engine_error_reset ⟨Value.mk [1, 2] 2, "add", ValueMode.Decimal, "(1, 2)"⟩
      (Value.mk [1, 2, 3] 3) Value.invalid rfl).1 (by decide)⟩

end VCalc
